import Mathlib

/-!
Verification of the task-report engine: a shallow embedding of the date
utilities (dateUtils.js), the GCP log extraction (jsonParser.js) and the
TaskProcessor class (taskProcessor.js), together with theorems settling the
behavioural claims about them.

Modelling conventions:
* Instants are integers, counting milliseconds since the Unix epoch
  (the value of Date.prototype.getTime).
* JS strings are Lean String values; regular-expression scans are embedded
  as concrete left-to-right scanners over the character list.
* moment(str, fmt, true) interprets wall-clock fields in the local zone
  whenever fmt carries no offset token.  The local zone of the process is
  modelled as a fixed UTC offset in minutes, passed as the tz argument
  (DST-free zones exist, so a fixed offset is a realizable environment).
  JS remainder and Lean emod agree on the equals-zero tests used here.
* Nullable JS values are Option; an own Invalid Date state is JsDate.invalid.
* The lenient fallback moment(dateString) and new Date(string) are modelled
  for ISO-8601 inputs, the only family the pipeline feeds them.
-/

namespace TaskReport

/-! ## Small JS helpers -/

/-- Truthiness of a nullable JS string: null, undefined and the empty string
are falsy. -/
def jsTruthyStr : Option String → Bool
  | none => false
  | some s => !(s == "")

/-- String.prototype.trim on a character list. -/
def jsTrimChars (l : List Char) : List Char :=
  ((l.dropWhile Char.isWhitespace).reverse.dropWhile Char.isWhitespace).reverse

/-- A string that is empty or whitespace only (the guard
`!dateString || dateString.trim() === ''` of parseDate). -/
def jsBlank (s : String) : Bool :=
  s.data.all (fun c => c.isWhitespace)

def digitVal (c : Char) : Nat := c.toNat - 48

/-! ## Calendar arithmetic (proleptic Gregorian, Howard Hinnant algorithms) -/

def isLeapYear (y : Int) : Bool :=
  (y.emod 4 == 0 && y.emod 100 != 0) || y.emod 400 == 0

def daysInMonth (y : Int) (m : Nat) : Nat :=
  if m = 2 then (if isLeapYear y then 29 else 28)
  else if m = 4 ∨ m = 6 ∨ m = 9 ∨ m = 11 then 30
  else 31

/-- Epoch day number of a calendar date (days_from_civil). -/
def daysFromCivil (y : Int) (m d : Nat) : Int :=
  let yy := if m ≤ 2 then y - 1 else y
  let era := yy.ediv 400
  let yoe := (yy - era * 400).toNat
  let mp := if 2 < m then m - 3 else m + 9
  let doy := (153 * mp + 2) / 5 + d - 1
  let doe := yoe * 365 + yoe / 4 - yoe / 100 + doy
  era * 146097 + (doe : Int) - 719468

/-- Calendar date of an epoch day number (civil_from_days). -/
def civilFromDays (z0 : Int) : Int × Nat × Nat :=
  let z := z0 + 719468
  let era := z.ediv 146097
  let doe := (z - era * 146097).toNat
  let yoe := (doe - doe / 1460 + doe / 36524 - doe / 146096) / 365
  let doy := doe - (365 * yoe + yoe / 4 - yoe / 100)
  let mp := (5 * doy + 2) / 153
  let d := doy - (153 * mp + 2) / 5 + 1
  let m := if mp < 10 then mp + 3 else mp - 9
  (if 10 ≤ mp then (yoe : Int) + era * 400 + 1 else (yoe : Int) + era * 400, m, d)

/-- Wall-clock fields of a datetime as read off an input string, before any
zone interpretation. -/
structure WallFields where
  year : Int
  month : Nat
  day : Nat
  hour : Nat
  minute : Nat
  second : Nat
  millis : Nat
  deriving DecidableEq

/-- Field-overflow validation (moment checkOverflow; 24:00:00.000 allowed). -/
def validFields (f : WallFields) : Bool :=
  decide (1 ≤ f.month ∧ f.month ≤ 12 ∧ 1 ≤ f.day ∧ f.day ≤ daysInMonth f.year f.month ∧
    (f.hour ≤ 23 ∨ (f.hour = 24 ∧ f.minute = 0 ∧ f.second = 0 ∧ f.millis = 0)) ∧
    f.minute ≤ 59 ∧ f.second ≤ 59 ∧ f.millis ≤ 999)

/-- Milliseconds since epoch of the wall-clock reading, taken as if UTC. -/
def wallMs (f : WallFields) : Int :=
  daysFromCivil f.year f.month f.day * 86400000 +
    ((f.hour * 3600000 + f.minute * 60000 + f.second * 1000 + f.millis : Nat) : Int)

def digitChar (n : Nat) : Char := Char.ofNat (48 + n % 10)

def pad2 (n : Nat) : String := String.mk [digitChar (n / 10), digitChar n]

def pad3 (n : Nat) : String := String.mk [digitChar (n / 100), digitChar (n / 10), digitChar n]

def pad4 (n : Nat) : String :=
  String.mk [digitChar (n / 1000), digitChar (n / 100), digitChar (n / 10), digitChar n]

def pad6 (n : Nat) : String :=
  String.mk [digitChar (n / 100000), digitChar (n / 10000), digitChar (n / 1000),
    digitChar (n / 100), digitChar (n / 10), digitChar n]

/-- Year component of Date.prototype.toISOString: four digits in 0..9999,
otherwise the signed six-digit expanded form. -/
def isoYearString (y : Int) : String :=
  if 0 ≤ y ∧ y ≤ 9999 then pad4 y.toNat
  else if y < 0 then "-" ++ pad6 (-y).toNat
  else "+" ++ pad6 y.toNat

/-- Date.prototype.toISOString: the canonical UTC serialized text form. -/
def toISOString (t : Int) : String :=
  let days := t.ediv 86400000
  let msod := (t.emod 86400000).toNat
  let ymd := civilFromDays days
  isoYearString ymd.1 ++ "-" ++ pad2 ymd.2.1 ++ "-" ++ pad2 ymd.2.2 ++ "T" ++
    pad2 (msod / 3600000) ++ ":" ++ pad2 (msod / 60000 % 60) ++ ":" ++
    pad2 (msod / 1000 % 60) ++ "." ++ pad3 (msod % 1000) ++ "Z"

/-! ## Character-level parsing primitives -/

/-- Read exactly n digits, most significant first. -/
def readExactDigits : Nat → Nat → List Char → Option (Nat × List Char)
  | 0, acc, cs => some (acc, cs)
  | _ + 1, _, [] => none
  | n + 1, acc, c :: cs =>
    if c.isDigit then readExactDigits n (acc * 10 + digitVal c) cs else none

/-- Greedy one-or-two-digit token (moment match1to2). -/
def readOneTwoDigits : List Char → Option (Nat × List Char)
  | [] => none
  | [c] => if c.isDigit then some (digitVal c, []) else none
  | c :: d :: cs =>
    if c.isDigit then
      if d.isDigit then some (digitVal c * 10 + digitVal d, cs)
      else some (digitVal c, d :: cs)
    else none

def expectChar (c : Char) : List Char → Option (List Char)
  | [] => none
  | x :: cs => if x = c then some cs else none

/-- Meridiem token; true means PM. -/
def readMeridiem : List Char → Option (Bool × List Char)
  | 'A' :: 'M' :: cs => some (false, cs)
  | 'P' :: 'M' :: cs => some (true, cs)
  | 'a' :: 'm' :: cs => some (false, cs)
  | 'p' :: 'm' :: cs => some (true, cs)
  | _ => none

/-- moment meridiemFixWrap applied to a parsed hour. -/
def meridiemFix (h : Nat) (pm : Bool) : Nat :=
  if pm then (if h < 12 then h + 12 else h)
  else (if h = 12 then 0 else h)

/-- Offset token (moment matchShortOffset): Z, +HH:mm, +HHmm and the minus
forms; the result is the stated offset in minutes. -/
def readOffset (cs : List Char) : Option (Int × List Char) :=
  match cs with
  | 'Z' :: rest => some (0, rest)
  | '+' :: rest => readOffsetMag 1 rest
  | '-' :: rest => readOffsetMag (-1) rest
  | _ => none
where
  readOffsetMag (sign : Int) (cs : List Char) : Option (Int × List Char) := do
    let (h, cs) ← readExactDigits 2 0 cs
    match cs with
    | ':' :: cs2 => do
      let (m, cs3) ← readExactDigits 2 0 cs2
      pure (sign * ((h : Int) * 60 + (m : Int)), cs3)
    | _ => do
      let (m, cs2) ← readExactDigits 2 0 cs
      pure (sign * ((h : Int) * 60 + (m : Int)), cs2)

/-! ## The four strict formats of parseDate -/

/-- Strict format M/D/YYYY H:mm. -/
def fmt1Parse (cs : List Char) : Option WallFields := do
  let (mo, cs) ← readOneTwoDigits cs
  let cs ← expectChar '/' cs
  let (d, cs) ← readOneTwoDigits cs
  let cs ← expectChar '/' cs
  let (y, cs) ← readExactDigits 4 0 cs
  let cs ← expectChar ' ' cs
  let (h, cs) ← readOneTwoDigits cs
  let cs ← expectChar ':' cs
  let (mi, cs) ← readExactDigits 2 0 cs
  if cs = [] then pure ⟨(y : Int), mo, d, h, mi, 0, 0⟩ else none

/-- Strict format M/D/YYYY H:mm:ss.SSS A. -/
def fmt2Parse (cs : List Char) : Option WallFields := do
  let (mo, cs) ← readOneTwoDigits cs
  let cs ← expectChar '/' cs
  let (d, cs) ← readOneTwoDigits cs
  let cs ← expectChar '/' cs
  let (y, cs) ← readExactDigits 4 0 cs
  let cs ← expectChar ' ' cs
  let (h, cs) ← readOneTwoDigits cs
  let cs ← expectChar ':' cs
  let (mi, cs) ← readExactDigits 2 0 cs
  let cs ← expectChar ':' cs
  let (sec, cs) ← readExactDigits 2 0 cs
  let cs ← expectChar '.' cs
  let (ms, cs) ← readExactDigits 3 0 cs
  let cs ← expectChar ' ' cs
  let (pm, cs) ← readMeridiem cs
  if cs = [] then pure ⟨(y : Int), mo, d, meridiemFix h pm, mi, sec, ms⟩ else none

/-- Strict format YYYY-MM-DDTHH:mm:ss.SSS[Z]: the bracketed Z is an escaped
literal character, not an offset token, so the format carries no zone
information and moment interprets the fields in local time. -/
def fmt3Parse (cs : List Char) : Option WallFields := do
  let (y, cs) ← readExactDigits 4 0 cs
  let cs ← expectChar '-' cs
  let (mo, cs) ← readExactDigits 2 0 cs
  let cs ← expectChar '-' cs
  let (d, cs) ← readExactDigits 2 0 cs
  let cs ← expectChar 'T' cs
  let (h, cs) ← readExactDigits 2 0 cs
  let cs ← expectChar ':' cs
  let (mi, cs) ← readExactDigits 2 0 cs
  let cs ← expectChar ':' cs
  let (sec, cs) ← readExactDigits 2 0 cs
  let cs ← expectChar '.' cs
  let (ms, cs) ← readExactDigits 3 0 cs
  let cs ← expectChar 'Z' cs
  if cs = [] then pure ⟨(y : Int), mo, d, h, mi, sec, ms⟩ else none

/-- Strict format YYYY-MM-DDTHH:mm:ss.SSS Z: a literal space then a real
offset token. -/
def fmt4Parse (cs : List Char) : Option (WallFields × Int) := do
  let (y, cs) ← readExactDigits 4 0 cs
  let cs ← expectChar '-' cs
  let (mo, cs) ← readExactDigits 2 0 cs
  let cs ← expectChar '-' cs
  let (d, cs) ← readExactDigits 2 0 cs
  let cs ← expectChar 'T' cs
  let (h, cs) ← readExactDigits 2 0 cs
  let cs ← expectChar ':' cs
  let (mi, cs) ← readExactDigits 2 0 cs
  let cs ← expectChar ':' cs
  let (sec, cs) ← readExactDigits 2 0 cs
  let cs ← expectChar '.' cs
  let (ms, cs) ← readExactDigits 3 0 cs
  let cs ← expectChar ' ' cs
  let (off, cs) ← readOffset cs
  if cs = [] then pure (⟨(y : Int), mo, d, h, mi, sec, ms⟩, off) else none

/-- Instant of a wall-clock reading interpreted at a UTC offset of off
minutes (local time is UTC plus off). -/
def atOffset (f : WallFields) (off : Int) : Int := wallMs f - off * 60000

/-- A strict format with no offset token: valid fields are interpreted in
the local zone. -/
def strictLocalResult (tz : Int) (f? : Option WallFields) : Option Int :=
  match f? with
  | some f => if validFields f then some (atOffset f tz) else none
  | none => none

/-- Shared ISO-8601 parser: date, optional T-time, optional offset token.
absentOff is the offset applied to date-time forms without an offset,
dateOnlyOff the one applied to date-only forms. -/
def isoParseCore (absentOff dateOnlyOff : Int) (cs : List Char) : Option Int := do
  let (y, cs) ← readExactDigits 4 0 cs
  let cs ← expectChar '-' cs
  let (mo, cs) ← readExactDigits 2 0 cs
  let cs ← expectChar '-' cs
  let (d, cs) ← readExactDigits 2 0 cs
  match cs with
  | [] =>
    let f : WallFields := ⟨(y : Int), mo, d, 0, 0, 0, 0⟩
    if validFields f then some (atOffset f dateOnlyOff) else none
  | 'T' :: cs => do
    let (h, cs) ← readExactDigits 2 0 cs
    let cs ← expectChar ':' cs
    let (mi, cs) ← readExactDigits 2 0 cs
    let (sec, ms, cs) ← readOptSecMs cs
    let offCs : Int × List Char :=
      match readOffset cs with
      | some (off, rest) => (off, rest)
      | none => (absentOff, cs)
    if offCs.2 = [] then
      let f : WallFields := ⟨(y : Int), mo, d, h, mi, sec, ms⟩
      if validFields f then some (atOffset f offCs.1) else none
    else none
  | _ => none
where
  readOptSecMs (cs : List Char) : Option (Nat × Nat × List Char) :=
    match cs with
    | ':' :: rest =>
      match readExactDigits 2 0 rest with
      | none => none
      | some (sec, cs2) =>
        match cs2 with
        | '.' :: rest2 =>
          match readExactDigits 3 0 rest2 with
          | none => none
          | some (ms, cs3) => some (sec, ms, cs3)
        | _ => some (sec, 0, cs2)
    | _ => some (0, 0, cs)

/-- The lenient fallback moment(dateString), modelled for ISO-8601 inputs:
forms without an offset are interpreted in local time. -/
def lenientIso (tz : Int) (cs : List Char) : Option Int :=
  isoParseCore tz tz cs

/-- dateUtils.parseDate: the ordered strict formats, then the lenient
fallback; null for blank input and when nothing matches. -/
def parseDate (tz : Int) (s : String) : Option Int :=
  if jsBlank s then none
  else
    let cs := s.data
    match strictLocalResult tz (fmt1Parse cs) with
    | some v => some v
    | none =>
    match strictLocalResult tz (fmt2Parse cs) with
    | some v => some v
    | none =>
    match strictLocalResult tz (fmt3Parse cs) with
    | some v => some v
    | none =>
    match fmt4Parse cs with
    | some (f, off) => if validFields f then some (atOffset f off) else lenientIso tz cs
    | none => lenientIso tz cs

/-! ## new Date(string) and Invalid Date -/

/-- A JS Date value: a valid instant or Invalid Date.  A nullable Date slot
is Option JsDate. -/
inductive JsDate where
  | invalid : JsDate
  | valid : Int → JsDate
  deriving DecidableEq

/-- new Date(string), modelled for ISO-8601 input: date-time forms without
an offset are local, date-only forms are UTC (ES2016+); everything else is
Invalid Date. -/
def jsDateParse (tz : Int) (s : String) : JsDate :=
  match isoParseCore tz 0 s.data with
  | some v => JsDate.valid v
  | none => JsDate.invalid

/-- dateUtils.calculateTimeDifferenceMinutes: absolute difference in whole
minutes (moment diff truncates toward zero, then Math.abs); null when either
endpoint is null or invalid. -/
def calculateTimeDifferenceMinutes : Option JsDate → Option JsDate → Option Nat
  | some (JsDate.valid a), some (JsDate.valid b) => some ((b - a).natAbs / 60000)
  | _, _ => none

/-! ## Free-text scanners of jsonParser.js and dateUtils.js -/

/-- Match of the pattern TASK-[0-9]+ anchored at the start of the list. -/
def taskIdAt : List Char → Option (List Char)
  | 'T' :: 'A' :: 'S' :: 'K' :: '-' :: rest =>
    match rest.span Char.isDigit with
    | (ds, _) =>
      if ds.isEmpty then none else some ('T' :: 'A' :: 'S' :: 'K' :: '-' :: ds)
  | _ => none

/-- First match of the pattern TASK-[0-9]+ (leftmost start, greedy digits);
like the regex engine, a failed anchored attempt advances one position. -/
def findTaskIdAux : List Char → Option (List Char)
  | [] => none
  | l@(_ :: rest) =>
    match taskIdAt l with
    | some r => some r
    | none => findTaskIdAux rest

/-- Capture of the pattern email=([^,]+) anchored at the start of the list. -/
def emailAt : List Char → Option (List Char)
  | 'e' :: 'm' :: 'a' :: 'i' :: 'l' :: '=' :: rest =>
    match rest.span (fun c => c != ',') with
    | (v, _) => if v.isEmpty then none else some v
  | _ => none

/-- First capture of the pattern email=([^,]+). -/
def findEmailAux : List Char → Option (List Char)
  | [] => none
  | l@(_ :: rest) =>
    match emailAt l with
    | some v => some v
    | none => findEmailAux rest

/-- Shape test for the 24-character embedded-timestamp pattern
[0-9]{4}-[0-9]{2}-[0-9]{2}T[0-9]{2}:[0-9]{2}:[0-9]{2}.[0-9]{3}Z. -/
def isoTsShape (l : List Char) : Bool :=
  match l with
  | [a, b, c, d, '-', e, f, '-', g, h, 'T', i, j, ':', k, m, ':', n, o, '.', p, q, r, 'Z'] =>
    a.isDigit && b.isDigit && c.isDigit && d.isDigit && e.isDigit && f.isDigit &&
    g.isDigit && h.isDigit && i.isDigit && j.isDigit && k.isDigit && m.isDigit &&
    n.isDigit && o.isDigit && p.isDigit && q.isDigit && r.isDigit
  | _ => false

/-- First match of the embedded-timestamp pattern. -/
def findIsoTsAux : List Char → Option (List Char)
  | [] => none
  | l@(_ :: rest) => if isoTsShape (l.take 24) then some (l.take 24) else findIsoTsAux rest

/-- dateUtils.extractTimestampFromTextPayload. -/
def extractTimestampFromTextPayload (tz : Int) (textPayload : Option String) : Option Int :=
  match textPayload with
  | none => none
  | some s =>
    if s = "" then none
    else
      match findIsoTsAux s.data with
      | some m => parseDate tz (String.mk m)
      | none => none

/-! ## Typed records -/

structure TaskAction where
  createdOn : Option Int
  action : String
  productiveTime : Option Int
  taskId : Option String
  loginEmail : String
  taskOpenTime : Option Int
  deriving DecidableEq

structure TaskHistoryEntry where
  taskId : Option String
  workStatus : String
  mcStatus : String
  action : String
  actionTimestamp : Option Int
  lastModifiedByUser : String
  deriving DecidableEq

structure AutoAssignment where
  taskId : Option String
  email : Option String
  timestamp : Int
  deriving DecidableEq

structure UserRow where
  userPrincipalName : String
  displayName : String
  deriving DecidableEq

structure OpenTimeRow where
  tasknum : Option String
  timestamp : Option Int
  deriving DecidableEq

structure ScreenOpenRow where
  email : Option String
  timestamp : Int
  deriving DecidableEq

/-- A gcp.json log item, as far as extractAutoAssignment reads it. -/
structure GCPItem where
  textPayload : Option String
  timestamp : Option String
  deriving DecidableEq

/-- jsonParser.extractAutoAssignment: timestamp resolution, preferring the
explicit timestamp field over the embedded one, with the NaN check folded in. -/
def gcpResolveTimestamp (tz : Int) (item : GCPItem) : Option Int :=
  if jsTruthyStr item.timestamp then
    match jsDateParse tz (item.timestamp.getD "") with
    | JsDate.valid v => some v
    | JsDate.invalid => none
  else extractTimestampFromTextPayload tz item.textPayload

/-- jsonParser.extractAutoAssignment: null for a falsy textPayload, for a
payload without a TASK-number and for an unresolvable timestamp; otherwise
the record with the trimmed email capture (or null when the email pattern
finds nothing). -/
def extractAutoAssignment (tz : Int) (item : GCPItem) : Option AutoAssignment :=
  if jsTruthyStr item.textPayload then
    match findTaskIdAux (item.textPayload.getD "").data with
    | none => none
    | some tid =>
      match gcpResolveTimestamp tz item with
      | none => none
      | some ts =>
        some ⟨some (String.mk tid),
          (match findEmailAux (item.textPayload.getD "").data with
           | some v => some (String.mk (jsTrimChars v))
           | none => none), ts⟩
  else none

/-- jsonParser.parseGCPJson, past the file I/O: keep the items whose
extraction succeeds. -/
def parseGCPJson (tz : Int) (items : List GCPItem) : List AutoAssignment :=
  items.filterMap (extractAutoAssignment tz)

/-! ## The in-memory indexes (JS Map on string keys) -/

/-- Map.prototype.get. -/
def mapLookup {α : Type} : List (String × α) → String → Option α
  | [], _ => none
  | (k, v) :: rest, key => if k = key then some v else mapLookup rest key

/-- Map.prototype.set: replace in place, else append. -/
def mapSet {α : Type} : List (String × α) → String → α → List (String × α)
  | [], key, v => [(key, v)]
  | (k, v0) :: rest, key, v =>
    if k = key then (k, v) :: rest else (k, v0) :: mapSet rest key v

/-- The create-empty-then-push idiom of the list-valued indexes. -/
def mapPush {α : Type} (m : List (String × List α)) (key : String) (a : α) :
    List (String × List α) :=
  let m1 := if (mapLookup m key).isSome then m else mapSet m key []
  mapSet m1 key ((mapLookup m1 key).getD [] ++ [a])

structure TaskProcessor where
  taskActionIndex : List (String × List TaskAction)
  taskHistoryIndex : List (String × List TaskHistoryEntry)
  userIndex : List (String × String)
  autoAssignmentIndex : List (String × AutoAssignment)
  openTimeIndex : List (String × Option Int)
  screenOpenIndex : List (String × List Int)
  deriving DecidableEq

def emptyProcessor : TaskProcessor := ⟨[], [], [], [], [], []⟩

def buildTaskActionIndex (p : TaskProcessor) (taskActions : List TaskAction) : TaskProcessor :=
  taskActions.foldl
    (fun p a =>
      if jsTruthyStr a.taskId then
        { p with taskActionIndex := mapPush p.taskActionIndex (a.taskId.getD "") a }
      else p) p

def buildTaskHistoryIndex (p : TaskProcessor) (taskHistories : List TaskHistoryEntry) : TaskProcessor :=
  taskHistories.foldl
    (fun p h =>
      if jsTruthyStr h.taskId then
        { p with taskHistoryIndex := mapPush p.taskHistoryIndex (h.taskId.getD "") h }
      else p) p

def buildUserIndex (p : TaskProcessor) (users : List UserRow) : TaskProcessor :=
  users.foldl
    (fun p u => { p with userIndex := mapSet p.userIndex u.userPrincipalName u.displayName }) p

def buildAutoAssignmentIndex (p : TaskProcessor) (autoAssignments : List AutoAssignment) : TaskProcessor :=
  autoAssignments.foldl
    (fun p a =>
      if jsTruthyStr a.taskId then
        { p with autoAssignmentIndex := mapSet p.autoAssignmentIndex (a.taskId.getD "") a }
      else p) p

def buildOpenTimeIndex (p : TaskProcessor) (assignToMeData : List OpenTimeRow) : TaskProcessor :=
  assignToMeData.foldl
    (fun p r =>
      if jsTruthyStr r.tasknum then
        { p with openTimeIndex := mapSet p.openTimeIndex (r.tasknum.getD "") r.timestamp }
      else p) p

def buildScreenOpenIndex (p : TaskProcessor) (screenOpenData : List ScreenOpenRow) : TaskProcessor :=
  screenOpenData.foldl
    (fun p e =>
      if jsTruthyStr e.email then
        { p with screenOpenIndex := mapPush p.screenOpenIndex (e.email.getD "") e.timestamp }
      else p) p

/-! ## Phase resolver -/

/-- getFirstScreenOpenTime: reduce over the stored list keeping the earlier
time.  A null email finds no entry. -/
def getFirstScreenOpenTime (p : TaskProcessor) (email : Option String) : Option Int :=
  match email with
  | none => none
  | some e =>
    match mapLookup p.screenOpenIndex e with
    | none => none
    | some [] => none
    | some (t :: ts) =>
      some (ts.foldl (fun earliest current => if current < earliest then current else earliest) t)

def getScreenOpenTimes (p : TaskProcessor) (email : Option String) : List Int :=
  match email with
  | none => []
  | some e => (mapLookup p.screenOpenIndex e).getD []

/-- getOpenTime: index lookup, with a stored null degrading to null. -/
def getOpenTime (p : TaskProcessor) (taskId : String) : Option Int :=
  match mapLookup p.openTimeIndex taskId with
  | some (some v) => some v
  | _ => none

def isCreationEntry (h : TaskHistoryEntry) : Bool :=
  h.mcStatus == "PMA" && h.action == "IN"

def isManualAssignEntry (h : TaskHistoryEntry) : Bool :=
  h.mcStatus == "PME" && h.action == "AS"

def isMakerCompleteEntry (h : TaskHistoryEntry) : Bool :=
  h.mcStatus == "PCA" && h.action == "SC"

def getCreatedTime (p : TaskProcessor) (taskId : String) : Option Int :=
  match mapLookup p.taskHistoryIndex taskId with
  | none => none
  | some histories => (histories.find? isCreationEntry).bind (fun h => h.actionTimestamp)

def getManualAssignedTime (p : TaskProcessor) (taskId : String) : Option Int :=
  match mapLookup p.taskHistoryIndex taskId with
  | none => none
  | some histories => (histories.find? isManualAssignEntry).bind (fun h => h.actionTimestamp)

def getAutoAssignedTime (p : TaskProcessor) (taskId : String) : Option Int :=
  (mapLookup p.autoAssignmentIndex taskId).map (fun a => a.timestamp)

def getMakerCompleteTime (p : TaskProcessor) (taskId : String) : Option Int :=
  match mapLookup p.taskHistoryIndex taskId with
  | none => none
  | some histories => (histories.find? isMakerCompleteEntry).bind (fun h => h.actionTimestamp)

def determineMode (p : TaskProcessor) (taskId : String) : String :=
  if (mapLookup p.autoAssignmentIndex taskId).isSome then "Auto"
  else if (mapLookup p.taskActionIndex taskId).isSome then "Manual"
  else "Unknown"

def getAssignedTime (p : TaskProcessor) (taskId : String) : Option Int :=
  if determineMode p taskId = "Auto" then getAutoAssignedTime p taskId
  else getManualAssignedTime p taskId

def getUserDisplayName (p : TaskProcessor) (email : String) : String :=
  match mapLookup p.userIndex email with
  | some displayName =>
    if displayName != "" then displayName ++ " (" ++ email ++ ")" else email
  | none => email

/-- getUserDisplayName as invoked with a nullable email (a null email finds
no display name and passes through). -/
def getUserDisplayNameOpt (p : TaskProcessor) (email : Option String) : Option String :=
  match email with
  | none => none
  | some e => some (getUserDisplayName p e)

/-! ## Report assembly -/

structure ReportRecord where
  task : String
  userName : String
  userEmail : String
  mode : String
  createdTime : String
  assignedTime : String
  makerCompleteTime : String
  openTime : String
  productiveTime : Option Nat
  waitingTime : Option Nat
  deriving DecidableEq

def optToIso : Option Int → String
  | some t => toISOString t
  | none => ""

/-- The draft-pass user resolution: first TaskActions entry, else the
AutoAssignment email, else the literal Unknown. -/
def resolveUserString (p : TaskProcessor) (taskId : String) : String :=
  match mapLookup p.taskActionIndex taskId with
  | some (a :: _) => getUserDisplayName p a.loginEmail
  | _ =>
    match mapLookup p.autoAssignmentIndex taskId with
    | some autoAssignment =>
      match autoAssignment.email with
      | some e => if e != "" then getUserDisplayName p e else "Unknown"
      | none => "Unknown"
    | none => "Unknown"

/-- A JS regex line terminator: the dot of a regex without the dotAll flag
matches any character except these four. -/
def isLineTerm (c : Char) : Bool :=
  c == '\n' || c == '\r' || c == '\u2028' || c == '\u2029'

/-- Whether the character list contains a regex line terminator. -/
def hasLineTerm (l : List Char) : Bool :=
  l.any isLineTerm

/-- Scan for the first space-parenthesis pair, as the lazy first group of
the regex (.*?) [(](.*?)[)]$ does: the lazy dot cannot cross a line
terminator, so the scan aborts on one.  (A later pair past the terminator
could never match either, since the first group would have to contain the
terminator.) -/
def firstSplitAux : List Char → Option (List Char × List Char)
  | [] => none
  | c :: rest =>
    if isLineTerm c then none
    else if c = ' ' ∧ rest.head? = some '(' then some ([], rest.tail)
    else
      match firstSplitAux rest with
      | some pr => some (c :: pr.1, pr.2)
      | none => none

/-- The draft-pass split of the display string into name and email
components; a non-matching form (including any form whose second group
would contain a line terminator, which the dot of the regex cannot match)
mirrors the whole string into both fields. -/
def splitUser (user : String) : String × String :=
  if user = "Unknown" then ("Unknown", "Unknown")
  else
    match firstSplitAux user.data with
    | some pr =>
      if pr.2.getLast? = some ')' ∧ hasLineTerm pr.2.dropLast = false then
        (String.mk pr.1, String.mk pr.2.dropLast)
      else (user, user)
    | none => (user, user)

/-- One draft record of the first pass of generateReport: phase timestamps
stored as serialized text, derived fields not yet filled. -/
def draftRecord (p : TaskProcessor) (taskId : String) : ReportRecord :=
  let user := resolveUserString p taskId
  let nameEmail := splitUser user
  { task := taskId
    userName := nameEmail.1
    userEmail := nameEmail.2
    mode := determineMode p taskId
    createdTime := optToIso (getCreatedTime p taskId)
    assignedTime := optToIso (getAssignedTime p taskId)
    makerCompleteTime := optToIso (getMakerCompleteTime p taskId)
    openTime := optToIso (getOpenTime p taskId)
    productiveTime := none
    waitingTime := none }

/-- findRecordByTaskId over the partially built report list. -/
def findRecordByTaskId (records : List ReportRecord) (taskId : String) : Option ReportRecord :=
  records.find? (fun r => r.task == taskId)

/-- calculateProductiveTime: re-parse the serialized assignedTime and
makerCompleteTime text stored on the draft record and apply the
elapsed-minutes arithmetic. -/
def calculateProductiveTime (tz : Int) (records : List ReportRecord) (taskId : String) :
    Option Nat :=
  match findRecordByTaskId records taskId with
  | none => none
  | some record =>
    let assignedTime : Option JsDate :=
      if record.assignedTime != "" then some (jsDateParse tz record.assignedTime) else none
    let makerCompleteTime : Option JsDate :=
      if record.makerCompleteTime != "" then some (jsDateParse tz record.makerCompleteTime)
      else none
    match assignedTime, makerCompleteTime with
    | some a, some m => calculateTimeDifferenceMinutes (some a) (some m)
    | _, _ => none

/-- calculateWaitingTime: recomputed directly from the indexes. -/
def calculateWaitingTime (p : TaskProcessor) (taskId : String) : Option Nat :=
  match getCreatedTime p taskId, getAssignedTime p taskId with
  | some c, some a =>
    calculateTimeDifferenceMinutes (some (JsDate.valid c)) (some (JsDate.valid a))
  | _, _ => none

/-- Set.prototype.add on the insertion-ordered id list. -/
def insertUnique (acc : List String) (s : String) : List String :=
  if s ∈ acc then acc else acc ++ [s]

/-- The universe of task ids: union of the TaskActions, TaskHistory and
AutoAssignment key sets, in first-appearance order. -/
def collectTaskIds (p : TaskProcessor) : List String :=
  (p.taskActionIndex.map Prod.fst ++ p.taskHistoryIndex.map Prod.fst ++
    p.autoAssignmentIndex.map Prod.fst).foldl insertUnique []

/-- generateReport: the draft pass over the id universe, then the second
pass filling productiveTime (from the re-parsed draft text via
findRecordByTaskId over the full draft list) and waitingTime (from the
indexes). -/
def generateReport (tz : Int) (p : TaskProcessor) : List ReportRecord :=
  ((collectTaskIds p).map (draftRecord p)).map
    (fun record =>
      { record with
        productiveTime :=
          calculateProductiveTime tz ((collectTaskIds p).map (draftRecord p)) record.task
        waitingTime := calculateWaitingTime p record.task })

/-! ## Auxiliary auto-task open analysis -/

structure AnalysisRecord where
  taskId : String
  userEmail : Option String
  userName : Option String
  assignedTime : String
  firstScreenOpenTime : String
  timeToOpenMinutes : Option Nat
  screenOpenCount : Nat
  assignmentDate : String
  deriving DecidableEq

/-- toISOString(t).split('T')[0]. -/
def isoDatePart (t : Int) : String :=
  String.mk ((toISOString t).data.takeWhile (fun c => c != 'T'))

def generateAutoTaskOpenAnalysis (p : TaskProcessor) : List AnalysisRecord :=
  p.autoAssignmentIndex.map
    (fun entry =>
      let assignedTime := entry.2.timestamp
      let userEmail := entry.2.email
      let firstScreenOpenTime := getFirstScreenOpenTime p userEmail
      let timeToOpenMinutes : Option Nat :=
        match firstScreenOpenTime with
        | some f =>
          if assignedTime < f then
            calculateTimeDifferenceMinutes (some (JsDate.valid assignedTime))
              (some (JsDate.valid f))
          else none
        | none => none
      { taskId := entry.1
        userEmail := userEmail
        userName := getUserDisplayNameOpt p userEmail
        assignedTime := toISOString assignedTime
        firstScreenOpenTime := optToIso firstScreenOpenTime
        timeToOpenMinutes := timeToOpenMinutes
        screenOpenCount := (getScreenOpenTimes p userEmail).length
        assignmentDate := isoDatePart assignedTime })

/-! ## Definitions used by the claim statements -/

/-- The re-parsed derivation of productiveTime as the spec states it: parse
the two serialized text fields stored on the draft record back to instants
and apply the elapsed-minutes arithmetic; empty text is null. -/
def reparsedProductiveTime (tz : Int) (assignedText makerText : String) : Option Nat :=
  match (if assignedText != "" then some (jsDateParse tz assignedText) else none),
        (if makerText != "" then some (jsDateParse tz makerText) else none) with
  | some a, some m => calculateTimeDifferenceMinutes (some a) (some m)
  | _, _ => none

/-- The key under which buildAutoAssignmentIndex stores a record, none when
the record is skipped for a falsy task id. -/
def autoIndexKey (a : AutoAssignment) : Option String :=
  if jsTruthyStr a.taskId then a.taskId else none

/-- Modelled from the spec: the earliest timestamp of a ScreenOpen list is
its minimum, independent of insertion order. -/
def minTimestamp : List Int → Option Int
  | [] => none
  | t :: ts => some (ts.foldl min t)

/-- Whether a space-parenthesis pair occurs in the character list. -/
def hasSpaceParen : List Char → Bool
  | [] => false
  | c :: rest =>
    if c = ' ' ∧ rest.head? = some '(' then true else hasSpaceParen rest

/-- Modelled from the spec (section 4.5): one analysis row per
AutoAssignment record, the earliest screen-open timestamp taken as the
minimum of the stored list, timeToOpenMinutes filled exactly when that
minimum is strictly after the assignment timestamp. -/
def analysisSpecRecord (p : TaskProcessor) (entry : String × AutoAssignment) : AnalysisRecord :=
  let earliest : Option Int :=
    match entry.2.email with
    | none => none
    | some e => (mapLookup p.screenOpenIndex e).bind minTimestamp
  { taskId := entry.1
    userEmail := entry.2.email
    userName := getUserDisplayNameOpt p entry.2.email
    assignedTime := toISOString entry.2.timestamp
    firstScreenOpenTime := optToIso earliest
    timeToOpenMinutes :=
      match earliest with
      | some f =>
        if entry.2.timestamp < f then
          calculateTimeDifferenceMinutes (some (JsDate.valid entry.2.timestamp))
            (some (JsDate.valid f))
        else none
      | none => none
    screenOpenCount := (getScreenOpenTimes p entry.2.email).length
    assignmentDate := isoDatePart entry.2.timestamp }

/-! ## Concrete fixtures used by the witness theorems -/

def histIN : TaskHistoryEntry := ⟨some "TASK-1", "", "PMA", "IN", some 0, ""⟩

def histAS : TaskHistoryEntry := ⟨some "TASK-1", "", "PME", "AS", some 60000, ""⟩

def histSC : TaskHistoryEntry := ⟨some "TASK-1", "", "PCA", "SC", some 4260000, ""⟩

def pW1 : TaskProcessor := ⟨[], [("TASK-1", [histIN, histAS, histSC])], [], [], [], []⟩

/-- The single record generateReport 0 pW1 produces. -/
def rW1 : ReportRecord :=
  ⟨"TASK-1", "Unknown", "Unknown", "Unknown", "1970-01-01T00:00:00.000Z",
    "1970-01-01T00:01:00.000Z", "1970-01-01T01:11:00.000Z", "", some 70, some 1⟩

def actW : TaskAction := ⟨none, "", none, some "TASK-1", "j@x.com", none⟩

def aaW : AutoAssignment := ⟨some "TASK-1", some "a@x.com", 100⟩

def pW3 : TaskProcessor := ⟨[("TASK-1", [actW])], [], [], [("TASK-1", aaW)], [], []⟩

def e41 : TaskHistoryEntry := ⟨some "TASK-1", "", "PME", "AS", some 10, ""⟩

def e42 : TaskHistoryEntry := ⟨some "TASK-1", "", "PMA", "IN", some 100, ""⟩

def e43 : TaskHistoryEntry := ⟨some "TASK-1", "", "PMA", "IN", some 50, ""⟩

def pW4 : TaskProcessor := ⟨[], [("TASK-1", [e41, e42, e43])], [], [], [], []⟩

def aaW5 : AutoAssignment := ⟨some "TASK-2", some "s@x.com", 777⟩

def pW5 : TaskProcessor := ⟨[], [], [], [("TASK-2", aaW5)], [], []⟩

def pW6 : TaskProcessor := ⟨[("TASK-1", [actW])], [], [("j@x.com", "John Doe")], [], [], []⟩

/-- The single record generateReport 0 pW6 produces. -/
def rW6 : ReportRecord :=
  ⟨"TASK-1", "John Doe", "j@x.com", "Manual", "", "", "", "", none, none⟩

def pW7 : TaskProcessor := ⟨[], [("TASK-1", [e42])], [], [], [("TASK-9", some 5)], []⟩

def pW9 : TaskProcessor :=
  ⟨[], [], [], [("TASK-1", ⟨some "TASK-1", some "u@x", 100⟩)], [],
    [("u@x", [400000, 160000, 700000])]⟩

def aaDupA : AutoAssignment := ⟨some "TASK-1", some "a@x", 100⟩

def aaDupB : AutoAssignment := ⟨some "TASK-1", some "b@x", 200⟩

def gcpNoTask : GCPItem := ⟨some "no task id here 2025-08-15T09:27:58.694Z", none⟩

def gcpNoTs : GCPItem := ⟨some "assigned TASK-42 to someone", none⟩

end TaskReport

namespace TaskReport

/-! ## Helper lemmas -/

theorem mapLookup_mapSet {α : Type} (m : List (String × α)) (k k' : String) (v : α) :
    mapLookup (mapSet m k v) k' = if k = k' then some v else mapLookup m k' := by
  induction m with
  | nil =>
    by_cases h : k = k' <;> simp [mapSet, mapLookup, h]
  | cons hd tl ih =>
    obtain ⟨k0, v0⟩ := hd
    by_cases h0 : k0 = k
    · subst h0
      by_cases h1 : k0 = k' <;> simp [mapSet, mapLookup, h1]
    · by_cases h1 : k0 = k'
      · subst h1
        have : ¬ k = k0 := fun h => h0 h.symm
        simp [mapSet, mapLookup, h0, this]
      · simp [mapSet, mapLookup, h0, h1, ih]

theorem mapSet_keys {α : Type} (m : List (String × α)) (k : String) (v : α) :
    (mapSet m k v).map Prod.fst =
      if k ∈ m.map Prod.fst then m.map Prod.fst else m.map Prod.fst ++ [k] := by
  induction m with
  | nil => simp [mapSet]
  | cons hd tl ih =>
    obtain ⟨k0, v0⟩ := hd
    by_cases h0 : k0 = k
    · subst h0; simp [mapSet]
    · have hne : ¬ k = k0 := fun h => h0 h.symm
      by_cases hmem : k ∈ tl.map Prod.fst <;>
        simp [mapSet, h0, ih, hmem, hne]

theorem mapSet_keys_nodup {α : Type} (m : List (String × α)) (k : String) (v : α)
    (h : (m.map Prod.fst).Nodup) : ((mapSet m k v).map Prod.fst).Nodup := by
  rw [mapSet_keys]
  by_cases hmem : k ∈ m.map Prod.fst
  · simpa [hmem] using h
  · simp only [hmem, if_false]
    exact h.append (List.nodup_singleton k)
      (fun x hx hk => by simp at hk; subst hk; exact hmem hx)

theorem find?_append_none {α : Type} (q : α → Bool) (l₁ l₂ : List α)
    (h : l₁.find? q = none) : (l₁ ++ l₂).find? q = l₂.find? q := by
  induction l₁ with
  | nil => simp
  | cons a l ih =>
    rw [List.find?_eq_none] at h
    have ha : ¬ q a = true := h a (by simp)
    rw [List.cons_append, List.find?_cons_of_neg _ ha]
    exact ih (List.find?_eq_none.mpr (fun x hx => h x (by simp [hx])))

theorem find?_append_some {α : Type} (q : α → Bool) (l₁ l₂ : List α) (a : α)
    (h : l₁.find? q = some a) : (l₁ ++ l₂).find? q = some a := by
  induction l₁ with
  | nil => simp at h
  | cons b l ih =>
    by_cases hb : q b = true
    · rw [List.find?_cons_of_pos _ hb] at h
      rw [List.cons_append, List.find?_cons_of_pos _ hb]
      exact h
    · rw [List.find?_cons_of_neg _ hb] at h
      rw [List.cons_append, List.find?_cons_of_neg _ hb]
      exact ih h

theorem find?_eq_none_of_all {α : Type} (q : α → Bool) (l : List α)
    (h : ∀ x ∈ l, q x = false) : l.find? q = none :=
  List.find?_eq_none.mpr (fun x hx => by simp [h x hx])

theorem find?_first_match {α : Type} (q : α → Bool) (l₁ : List α) (e : α) (l₂ : List α)
    (h₁ : ∀ x ∈ l₁, q x = false) (h₂ : q e = true) : (l₁ ++ e :: l₂).find? q = some e := by
  rw [find?_append_none q l₁ _ (find?_eq_none_of_all q l₁ h₁)]
  exact List.find?_cons_of_pos _ h₂

theorem foldl_insertUnique_mem (l acc : List String) (t : String) :
    t ∈ l.foldl insertUnique acc ↔ t ∈ acc ∨ t ∈ l := by
  induction l generalizing acc with
  | nil => simp
  | cons a l ih =>
    rw [List.foldl_cons, ih]
    unfold insertUnique
    by_cases h : a ∈ acc
    · simp only [h, if_true, List.mem_cons]
      constructor
      · rintro (h1 | h1)
        · exact Or.inl h1
        · exact Or.inr (Or.inr h1)
      · rintro (h1 | rfl | h1)
        · exact Or.inl h1
        · exact Or.inl h
        · exact Or.inr h1
    · simp only [h, if_false, List.mem_append, List.mem_singleton, List.mem_cons,
        List.not_mem_nil, or_false, or_assoc]

theorem foldl_insertUnique_nodup (l acc : List String) (h : acc.Nodup) :
    (l.foldl insertUnique acc).Nodup := by
  induction l generalizing acc with
  | nil => simpa using h
  | cons a l ih =>
    rw [List.foldl_cons]
    apply ih
    unfold insertUnique
    by_cases ha : a ∈ acc
    · simpa [ha] using h
    · simp only [ha, if_false]
      exact h.append (List.nodup_singleton a)
        (fun x hx hk => by simp at hk; subst hk; exact ha hx)

theorem collectTaskIds_nodup (p : TaskProcessor) : (collectTaskIds p).Nodup :=
  foldl_insertUnique_nodup _ _ List.nodup_nil

theorem mem_collectTaskIds (p : TaskProcessor) (t : String) :
    t ∈ collectTaskIds p ↔
      t ∈ p.taskActionIndex.map Prod.fst ∨ t ∈ p.taskHistoryIndex.map Prod.fst ∨
        t ∈ p.autoAssignmentIndex.map Prod.fst := by
  unfold collectTaskIds
  rw [foldl_insertUnique_mem]
  simp [List.mem_append, or_assoc]

theorem draftRecord_task (p : TaskProcessor) (t : String) : (draftRecord p t).task = t := rfl

theorem find?_map_draftRecord (p : TaskProcessor) (ids : List String) (t : String)
    (ht : t ∈ ids) :
    (ids.map (draftRecord p)).find? (fun r => r.task == t) = some (draftRecord p t) := by
  induction ids with
  | nil => cases ht
  | cons a l ih =>
    rw [List.map_cons]
    by_cases h : a = t
    · subst h
      exact List.find?_cons_of_pos _ (by simp [draftRecord_task])
    · rw [List.find?_cons_of_neg _ (by simp [draftRecord_task, h])]
      rcases List.mem_cons.mp ht with h1 | h1
      · exact absurd h1.symm h
      · exact ih h1

theorem buildAuto_index (l : List AutoAssignment) (p : TaskProcessor) :
    (buildAutoAssignmentIndex p l).autoAssignmentIndex =
      l.foldl
        (fun m a =>
          if jsTruthyStr a.taskId then mapSet m (a.taskId.getD "") a else m)
        p.autoAssignmentIndex := by
  induction l generalizing p with
  | nil => rfl
  | cons a l ih =>
    unfold buildAutoAssignmentIndex at ih ⊢
    rw [List.foldl_cons, List.foldl_cons]
    by_cases h : jsTruthyStr a.taskId = true
    · simp only [h, if_true]
      exact ih _
    · simp only [Bool.not_eq_true] at h
      simp only [h, Bool.false_eq_true, if_false]
      exact ih _

theorem buildAuto_lookup_fold (l : List AutoAssignment) (m : List (String × AutoAssignment))
    (t : String) :
    mapLookup
        (l.foldl
          (fun m a =>
            if jsTruthyStr a.taskId then mapSet m (a.taskId.getD "") a else m)
          m) t =
      match l.reverse.find? (fun a => autoIndexKey a == some t) with
      | some a => some a
      | none => mapLookup m t := by
  induction l generalizing m with
  | nil => simp
  | cons a l ih =>
    rw [List.foldl_cons, ih, List.reverse_cons]
    by_cases hfind : l.reverse.find? (fun a => autoIndexKey a == some t) = none
    · rw [find?_append_none _ _ _ hfind, hfind]
      by_cases htr : jsTruthyStr a.taskId = true
      · obtain ⟨s, hs⟩ : ∃ s, a.taskId = some s := by
          cases hk : a.taskId
          · rw [hk] at htr; simp [jsTruthyStr] at htr
          · exact ⟨_, rfl⟩
        have hkey : autoIndexKey a = some s := by
          simp only [autoIndexKey, htr, if_true]
          exact hs
        by_cases hst : s = t
        · subst hst
          simp only [htr, if_true, List.find?_cons, hkey, beq_self_eq_true]
          rw [mapLookup_mapSet]
          simp [hs]
        · have : (autoIndexKey a == some t) = false := by
            simp [hkey, hst]
          simp only [htr, if_true, List.find?_cons, this]
          rw [mapLookup_mapSet]
          simp [hs, hst]
      · simp only [Bool.not_eq_true] at htr
        have hkey : autoIndexKey a = none := by simp [autoIndexKey, htr]
        simp [htr, List.find?_cons, hkey]
    · obtain ⟨b, hb⟩ := Option.ne_none_iff_exists'.mp hfind
      rw [hb, find?_append_some _ _ _ _ hb]

theorem buildAuto_lookup (l : List AutoAssignment) (t : String) :
    mapLookup (buildAutoAssignmentIndex emptyProcessor l).autoAssignmentIndex t =
      match l.reverse.find? (fun a => autoIndexKey a == some t) with
      | some a => some a
      | none => none := by
  rw [buildAuto_index, buildAuto_lookup_fold]
  rfl

theorem buildAuto_keys_nodup_fold (l : List AutoAssignment)
    (m : List (String × AutoAssignment)) (h : (m.map Prod.fst).Nodup) :
    ((l.foldl
        (fun m a =>
          if jsTruthyStr a.taskId then mapSet m (a.taskId.getD "") a else m)
        m).map Prod.fst).Nodup := by
  induction l generalizing m with
  | nil => simpa using h
  | cons a l ih =>
    rw [List.foldl_cons]
    apply ih
    by_cases htr : jsTruthyStr a.taskId = true
    · simp only [htr, if_true]
      exact mapSet_keys_nodup _ _ _ h
    · simp only [Bool.not_eq_true] at htr
      simpa [htr] using h

theorem foldl_earliest_eq_foldl_min (t : Int) (ts : List Int) :
    ts.foldl (fun earliest current => if current < earliest then current else earliest) t =
      ts.foldl min t := by
  have hf : (fun (earliest current : Int) => if current < earliest then current else earliest) =
      min := by
    funext e c
    by_cases h : c < e
    · simp only [h, if_true]
      omega
    · simp only [h, if_false]
      omega
  rw [hf]

theorem foldl_min_spec (ts : List Int) (t : Int) :
    ts.foldl min t ∈ t :: ts ∧ ∀ x ∈ t :: ts, ts.foldl min t ≤ x := by
  induction ts generalizing t with
  | nil => simp
  | cons c ts ih =>
    obtain ⟨hmem, hle⟩ := ih (min t c)
    rw [List.foldl_cons]
    constructor
    · rcases List.mem_cons.mp hmem with h | h
      · rcases min_choice t c with h2 | h2
        · exact List.mem_cons.mpr (Or.inl (h.trans h2))
        · exact List.mem_cons.mpr (Or.inr (List.mem_cons.mpr (Or.inl (h.trans h2))))
      · exact List.mem_cons.mpr (Or.inr (List.mem_cons.mpr (Or.inr h)))
    · intro x hx
      rcases List.mem_cons.mp hx with rfl | hx
      · exact le_trans (hle _ (List.mem_cons.mpr (Or.inl rfl))) (min_le_left _ _)
      rcases List.mem_cons.mp hx with rfl | hx
      · exact le_trans (hle _ (List.mem_cons.mpr (Or.inl rfl))) (min_le_right _ _)
      · exact hle _ (List.mem_cons.mpr (Or.inr hx))

theorem minTimestamp_spec (l : List Int) (m : Int) (h : minTimestamp l = some m) :
    m ∈ l ∧ ∀ x ∈ l, m ≤ x := by
  cases l with
  | nil => simp [minTimestamp] at h
  | cons t ts =>
    have hm : m = ts.foldl min t := by
      simpa [minTimestamp] using h.symm
    subst hm
    exact foldl_min_spec ts t

theorem minTimestamp_perm (l₁ l₂ : List Int) (h : l₁.Perm l₂) :
    minTimestamp l₁ = minTimestamp l₂ := by
  cases h1 : l₁ with
  | nil =>
    subst h1
    have : l₂ = [] := h.nil_eq.symm
    rw [this]
  | cons t ts =>
    cases h2 : l₂ with
    | nil =>
      subst h2
      rw [h1] at h
      exact absurd (h.symm.nil_eq) (by simp)
    | cons u us =>
      subst h1; subst h2
      obtain ⟨hm1, hb1⟩ := minTimestamp_spec _ _ (rfl : minTimestamp (t :: ts) = _)
      obtain ⟨hm2, hb2⟩ := minTimestamp_spec _ _ (rfl : minTimestamp (u :: us) = _)
      have hle1 := hb2 _ (h.mem_iff.mp hm1)
      have hle2 := hb1 _ (h.mem_iff.mpr hm2)
      simp only [minTimestamp]
      exact congrArg some (le_antisymm hle2 hle1)

theorem getFirstScreenOpenTime_eq_min (p : TaskProcessor) (e : String) :
    getFirstScreenOpenTime p (some e) = (mapLookup p.screenOpenIndex e).bind minTimestamp := by
  cases hlk : mapLookup p.screenOpenIndex e with
  | none => simp [getFirstScreenOpenTime, hlk]
  | some l =>
    cases l with
    | nil => simp [getFirstScreenOpenTime, hlk, minTimestamp]
    | cons t ts =>
      simp [getFirstScreenOpenTime, hlk, minTimestamp, foldl_earliest_eq_foldl_min]

theorem hasLineTerm_eq_false_iff (l : List Char) :
    hasLineTerm l = false ↔ ∀ c ∈ l, isLineTerm c = false := by
  unfold hasLineTerm
  rw [← Bool.not_eq_true, List.any_eq_true]
  constructor
  · intro h c hc
    by_contra hct
    exact h ⟨c, hc, by simpa using hct⟩
  · rintro h ⟨c, hc, hct⟩
    rw [h c hc] at hct
    cases hct

theorem firstSplitAux_concat (name rest : List Char) (h : hasSpaceParen name = false)
    (hclean : ∀ c ∈ name, isLineTerm c = false) :
    firstSplitAux (name ++ ' ' :: '(' :: rest) = some (name, rest) := by
  induction name with
  | nil => simp [firstSplitAux, isLineTerm]
  | cons c tl ih =>
    rw [List.cons_append]
    have hlt : isLineTerm c = false := hclean c (by simp)
    have hcond : ¬ (c = ' ' ∧ (tl ++ ' ' :: '(' :: rest).head? = some '(') := by
      cases tl with
      | nil => simp
      | cons d tl2 =>
        rintro ⟨hc, hd⟩
        subst hc
        simp only [List.cons_append, List.head?] at hd
        have hd2 : d = '(' := by simpa using hd
        subst hd2
        simp [hasSpaceParen] at h
    have htl : hasSpaceParen tl = false := by
      by_cases hc : c = ' ' ∧ tl.head? = some '('
      · simp [hasSpaceParen, hc] at h
      · simpa [hasSpaceParen, hc] using h
    rw [firstSplitAux]
    simp only [hlt, Bool.false_eq_true, if_false]
    rw [if_neg hcond, ih htl (fun x hx => hclean x (by simp [hx]))]

/-- Soundness of the scan: a successful split reassembles the input and its
first group is free of line terminators. -/
theorem firstSplitAux_sound (l : List Char) (pr : List Char × List Char)
    (h : firstSplitAux l = some pr) :
    l = pr.1 ++ ' ' :: '(' :: pr.2 ∧ ∀ c ∈ pr.1, isLineTerm c = false := by
  induction l generalizing pr with
  | nil => simp [firstSplitAux] at h
  | cons c rest ih =>
    rw [firstSplitAux] at h
    by_cases hlt : isLineTerm c = true
    · simp [hlt] at h
    · simp only [Bool.not_eq_true] at hlt
      rw [hlt] at h
      simp only [Bool.false_eq_true, if_false] at h
      by_cases hcond : c = ' ' ∧ rest.head? = some '('
      · rw [if_pos hcond] at h
        obtain ⟨hc, hh⟩ := hcond
        subst hc
        cases rest with
        | nil => simp at hh
        | cons d tl =>
          have hd : d = '(' := by simpa using hh
          subst hd
          obtain rfl : (([], tl) : List Char × List Char) = pr := by simpa using h
          exact ⟨rfl, by simp⟩
      · rw [if_neg hcond] at h
        cases hrec : firstSplitAux rest with
        | none => rw [hrec] at h; cases h
        | some pr2 =>
          rw [hrec] at h
          obtain rfl : (c :: pr2.1, pr2.2) = pr := by simpa using h
          obtain ⟨heq, hcl⟩ := ih pr2 hrec
          refine ⟨by simp [heq], ?_⟩
          intro x hx
          rcases List.mem_cons.mp hx with rfl | hx2
          · exact hlt
          · exact hcl x hx2

theorem mk_data_eq (s : String) : String.mk s.data = s := rfl

theorem splitUser_named (name email : String) (hname : hasSpaceParen name.data = false)
    (hnlt : hasLineTerm name.data = false) (helt : hasLineTerm email.data = false)
    (hne : name ++ " (" ++ email ++ ")" ≠ "Unknown") :
    splitUser (name ++ " (" ++ email ++ ")") = (name, email) := by
  have hdata : (name ++ " (" ++ email ++ ")").data =
      name.data ++ ' ' :: '(' :: (email.data ++ [')']) := by
    have h1 : (" (" : String).data = [' ', '('] := rfl
    have h2 : (")" : String).data = [')'] := rfl
    simp [String.data_append, h1, h2]
  simp only [splitUser, if_neg hne, hdata,
    firstSplitAux_concat name.data (email.data ++ [')']) hname
      ((hasLineTerm_eq_false_iff name.data).mp hnlt)]
  simp [List.getLast?_concat, List.dropLast_concat, mk_data_eq, helt]

theorem splitUser_mirror (s : String) (hne : s ≠ "Unknown")
    (h : firstSplitAux s.data = none ∨
      ∀ pr, firstSplitAux s.data = some pr →
        ¬ (pr.2.getLast? = some ')' ∧ hasLineTerm pr.2.dropLast = false)) :
    splitUser s = (s, s) := by
  rcases h with h | h
  · simp only [splitUser, if_neg hne, h]
  · cases hf : firstSplitAux s.data with
    | none => simp only [splitUser, if_neg hne, hf]
    | some pr =>
      simp only [splitUser, if_neg hne, hf]
      rw [if_neg (h pr hf)]

theorem mem_dropLast_or_getLast (l : List Char) (c : Char) (hc : c ∈ l) :
    c ∈ l.dropLast ∨ l.getLast? = some c := by
  induction l with
  | nil => cases hc
  | cons a tl ih =>
    cases tl with
    | nil =>
      right
      have : c = a := by simpa using hc
      subst this
      rfl
    | cons b tl2 =>
      rcases List.mem_cons.mp hc with rfl | hc2
      · left
        simp [List.dropLast]
      · rcases ih hc2 with h | h
        · left
          simp only [List.dropLast]
          exact List.mem_cons.mpr (Or.inr h)
        · right
          rw [List.getLast?_cons_cons]
          exact h

/-- A display string containing a line terminator never splits: the dot of
the regex cannot match the terminator in either group, so the code mirrors
the whole string. -/
theorem splitUser_lineTerm (s : String) (hne : s ≠ "Unknown")
    (h : hasLineTerm s.data = true) :
    splitUser s = (s, s) := by
  cases hf : firstSplitAux s.data with
  | none => simp only [splitUser, if_neg hne, hf]
  | some pr =>
    simp only [splitUser, if_neg hne, hf]
    rw [if_neg ?hcond]
    case hcond =>
      rintro ⟨hlast, hclean⟩
      obtain ⟨c, hcmem, hct⟩ := List.any_eq_true.mp h
      obtain ⟨heq, hp1⟩ := firstSplitAux_sound s.data pr hf
      rw [heq] at hcmem
      rcases List.mem_append.mp hcmem with hc1 | hc2
      · rw [hp1 c hc1] at hct
        cases hct
      · rcases List.mem_cons.mp hc2 with rfl | hc3
        · simp [isLineTerm] at hct
        rcases List.mem_cons.mp hc3 with rfl | hc4
        · simp [isLineTerm] at hct
        · rcases mem_dropLast_or_getLast pr.2 c hc4 with hd | hg
          · rw [(hasLineTerm_eq_false_iff pr.2.dropLast).mp hclean c hd] at hct
            cases hct
          · rw [hlast] at hg
            obtain rfl : c = ')' := by simpa using hg.symm
            simp [isLineTerm] at hct

theorem reparsedProductiveTime_cases (tz : Int) (a m : String) :
    (a = "" → reparsedProductiveTime tz a m = none) ∧
    (m = "" → reparsedProductiveTime tz a m = none) ∧
    (jsDateParse tz a = JsDate.invalid → reparsedProductiveTime tz a m = none) ∧
    (jsDateParse tz m = JsDate.invalid → reparsedProductiveTime tz a m = none) := by
  refine ⟨?_, ?_, ?_, ?_⟩
  · intro h
    subst h
    simp [reparsedProductiveTime]
  · intro h
    subst h
    by_cases ha : a = ""
    · subst ha; simp [reparsedProductiveTime]
    · simp [reparsedProductiveTime, ha]
  · intro h
    by_cases ha : a = ""
    · subst ha; simp [reparsedProductiveTime]
    · by_cases hm : m = ""
      · subst hm; simp [reparsedProductiveTime, ha]
      · cases hjm : jsDateParse tz m <;>
          simp [reparsedProductiveTime, ha, hm, h, hjm, calculateTimeDifferenceMinutes]
  · intro h
    by_cases hm : m = ""
    · subst hm
      by_cases ha : a = ""
      · subst ha; simp [reparsedProductiveTime]
      · simp [reparsedProductiveTime, ha]
    · by_cases ha : a = ""
      · subst ha; simp [reparsedProductiveTime]
      · cases hja : jsDateParse tz a <;>
          simp [reparsedProductiveTime, ha, hm, h, hja, calculateTimeDifferenceMinutes]

theorem generateReport_task_map (tz : Int) (p : TaskProcessor) :
    (generateReport tz p).map (fun r => r.task) = collectTaskIds p := by
  unfold generateReport
  rw [List.map_map, List.map_map]
  show List.map (fun t => t) (collectTaskIds p) = collectTaskIds p
  exact List.map_id' _

theorem mem_generateReport (tz : Int) (p : TaskProcessor) (r : ReportRecord) :
    r ∈ generateReport tz p ↔
      ∃ t ∈ collectTaskIds p,
        r =
          { draftRecord p t with
            productiveTime :=
              calculateProductiveTime tz ((collectTaskIds p).map (draftRecord p)) t
            waitingTime := calculateWaitingTime p t } := by
  unfold generateReport
  constructor
  · intro hr
    obtain ⟨record, hrec, rfl⟩ := List.mem_map.mp hr
    obtain ⟨t, ht, rfl⟩ := List.mem_map.mp hrec
    exact ⟨t, ht, rfl⟩
  · rintro ⟨t, ht, rfl⟩
    exact List.mem_map.mpr ⟨draftRecord p t, List.mem_map.mpr ⟨t, ht, rfl⟩, rfl⟩

/-! ## Claim theorems -/

/-- C1: every record of the two-pass report carries a productiveTime that is
computed in the second pass by re-parsing the assignedTime and
makerCompleteTime text fields stored on the draft record taken in pass one
and applying the elapsed-minutes arithmetic to the re-parsed instants, and
it is null whenever either of those text fields is empty or fails to parse;
the derivation goes through the serialized snapshot of the record itself,
not through fresh index lookups. -/
theorem claim1_productive_time_reparsed (tz : Int) (p : TaskProcessor) (r : ReportRecord)
    (hr : r ∈ generateReport tz p) :
    r.productiveTime = reparsedProductiveTime tz r.assignedTime r.makerCompleteTime ∧
    (r.assignedTime = "" → r.productiveTime = none) ∧
    (r.makerCompleteTime = "" → r.productiveTime = none) ∧
    (jsDateParse tz r.assignedTime = JsDate.invalid → r.productiveTime = none) ∧
    (jsDateParse tz r.makerCompleteTime = JsDate.invalid → r.productiveTime = none) := by
  obtain ⟨t, ht, rfl⟩ := (mem_generateReport tz p r).mp hr
  have hmain :
      ({ draftRecord p t with
          productiveTime :=
            calculateProductiveTime tz ((collectTaskIds p).map (draftRecord p)) t
          waitingTime := calculateWaitingTime p t } : ReportRecord).productiveTime =
        reparsedProductiveTime tz (draftRecord p t).assignedTime
          (draftRecord p t).makerCompleteTime := by
    show calculateProductiveTime tz ((collectTaskIds p).map (draftRecord p)) t = _
    unfold calculateProductiveTime findRecordByTaskId
    rw [find?_map_draftRecord p _ t ht]
    rfl
  refine ⟨hmain, fun h => ?_, fun h => ?_, fun h => ?_, fun h => ?_⟩
  · rw [hmain]
    exact (reparsedProductiveTime_cases tz _ _).1 h
  · rw [hmain]
    exact (reparsedProductiveTime_cases tz _ _).2.1 h
  · rw [hmain]
    exact (reparsedProductiveTime_cases tz _ _).2.2.1 h
  · rw [hmain]
    exact (reparsedProductiveTime_cases tz _ _).2.2.2 h

theorem claim1_witness : rW1 ∈ generateReport 0 pW1 ∧ rW1.productiveTime = some 70 := by
  have hr : rW1 ∈ generateReport 0 pW1 := by decide
  refine ⟨hr, ?_⟩
  rw [(claim1_productive_time_reparsed 0 pW1 rW1 hr).1]
  decide

/-- C2: the claim says every parsed instant is normalized to UTC and that
serialize-then-reparse is the identity to millisecond precision.  The code
breaks both: the strict format for ISO text escapes the Z as a literal, so
moment interprets the wall-clock fields in local time and the trailing
utc() call never changes the instant.  At a local offset of +60 minutes the
canonical text of instant 1756128000000 (2025-08-25T13:20:00.000Z)
re-parses to 1756124400000, one hour off; at offset 0 the round trip holds,
showing the defect is exactly the unintended local-time interpretation. -/
theorem claim2_parse_not_utc :
    toISOString 1756128000000 = "2025-08-25T13:20:00.000Z" ∧
    parseDate 60 "2025-08-25T13:20:00.000Z" = some 1756124400000 ∧
    parseDate 60 (toISOString 1756128000000) ≠ some 1756128000000 ∧
    parseDate 0 (toISOString 1756128000000) = some 1756128000000 := by
  refine ⟨by decide, by decide, by decide, by decide⟩

/-- C3: for every task id the mode is exactly one of Auto, Manual, Unknown:
Auto when the id is in the AutoAssignment index, else Manual when it is in
the TaskActions index, else Unknown; and a task id present in both indexes
gets Auto. -/
theorem claim3_mode_total (p : TaskProcessor) (t : String) :
    (determineMode p t = "Auto" ∨ determineMode p t = "Manual" ∨
      determineMode p t = "Unknown") ∧
    ((mapLookup p.autoAssignmentIndex t).isSome = true → determineMode p t = "Auto") ∧
    ((mapLookup p.autoAssignmentIndex t).isSome = false →
      (mapLookup p.taskActionIndex t).isSome = true → determineMode p t = "Manual") ∧
    ((mapLookup p.autoAssignmentIndex t).isSome = false →
      (mapLookup p.taskActionIndex t).isSome = false → determineMode p t = "Unknown") ∧
    ((mapLookup p.autoAssignmentIndex t).isSome = true →
      (mapLookup p.taskActionIndex t).isSome = true → determineMode p t = "Auto") := by
  unfold determineMode
  by_cases h1 : (mapLookup p.autoAssignmentIndex t).isSome = true
  · simp [h1]
  · simp only [Bool.not_eq_true] at h1
    by_cases h2 : (mapLookup p.taskActionIndex t).isSome = true
    · simp [h1, h2]
    · simp only [Bool.not_eq_true] at h2
      simp [h1, h2]

theorem claim3_witness : determineMode pW3 "TASK-1" = "Auto" :=
  (claim3_mode_total pW3 "TASK-1").2.2.2.2 (by decide) (by decide)

/-- C4: createdTime is the actionTimestamp of the first entry, in source
ingestion order, of the TaskHistory list whose status is PMA and action
is IN, and null when no such entry exists; the selection is positional,
independent of the timestamps. -/
theorem claim4_created_first_source_order (p : TaskProcessor) (t : String) :
    (mapLookup p.taskHistoryIndex t = none → getCreatedTime p t = none) ∧
    (∀ hs, mapLookup p.taskHistoryIndex t = some hs →
      ((∀ h ∈ hs, isCreationEntry h = false) → getCreatedTime p t = none) ∧
      (∀ l₁ e l₂, hs = l₁ ++ e :: l₂ → (∀ x ∈ l₁, isCreationEntry x = false) →
        isCreationEntry e = true → getCreatedTime p t = e.actionTimestamp)) := by
  constructor
  · intro h
    simp [getCreatedTime, h]
  · intro hs hlk
    constructor
    · intro hall
      simp [getCreatedTime, hlk, find?_eq_none_of_all _ _ hall]
    · rintro l₁ e l₂ rfl h₁ h₂
      simp [getCreatedTime, hlk, find?_first_match _ _ _ _ h₁ h₂]

theorem claim4_witness : getCreatedTime pW4 "TASK-1" = some 100 := by
  rw [((claim4_created_first_source_order pW4 "TASK-1").2 [e41, e42, e43] (by decide)).2
    [e41] e42 [e43] (by decide) (by decide) (by decide)]
  decide

/-- C5: assignedTime follows the mode: in Auto mode it is the timestamp of
the AutoAssignment record, and in Manual or Unknown mode (mode not Auto) it
is the actionTimestamp of the first TaskHistory entry, in source order,
with status PME and action AS, null when no such entry exists. -/
theorem claim5_assigned_by_mode (p : TaskProcessor) (t : String) :
    (determineMode p t = "Auto" →
      ∃ aa, mapLookup p.autoAssignmentIndex t = some aa ∧
        getAssignedTime p t = some aa.timestamp) ∧
    (determineMode p t ≠ "Auto" →
      getAssignedTime p t = getManualAssignedTime p t ∧
      (mapLookup p.taskHistoryIndex t = none → getAssignedTime p t = none) ∧
      (∀ hs, mapLookup p.taskHistoryIndex t = some hs →
        ((∀ h ∈ hs, isManualAssignEntry h = false) → getAssignedTime p t = none) ∧
        (∀ l₁ e l₂, hs = l₁ ++ e :: l₂ → (∀ x ∈ l₁, isManualAssignEntry x = false) →
          isManualAssignEntry e = true → getAssignedTime p t = e.actionTimestamp))) := by
  constructor
  · intro hmode
    cases hlk : mapLookup p.autoAssignmentIndex t with
    | none =>
      exfalso
      unfold determineMode at hmode
      rw [hlk] at hmode
      simp only [Option.isSome_none, Bool.false_eq_true, if_false] at hmode
      by_cases h2 : (mapLookup p.taskActionIndex t).isSome = true
      · rw [if_pos h2] at hmode
        exact absurd hmode (by decide)
      · rw [if_neg h2] at hmode
        exact absurd hmode (by decide)
    | some aa =>
      refine ⟨aa, rfl, ?_⟩
      unfold getAssignedTime
      rw [if_pos hmode]
      unfold getAutoAssignedTime
      rw [hlk]
      rfl
  · intro hmode
    have heq : getAssignedTime p t = getManualAssignedTime p t := by
      unfold getAssignedTime
      rw [if_neg hmode]
    refine ⟨heq, ?_, ?_⟩
    · intro h
      rw [heq]
      simp [getManualAssignedTime, h]
    · intro hs hlk
      constructor
      · intro hall
        rw [heq]
        simp [getManualAssignedTime, hlk, find?_eq_none_of_all _ _ hall]
      · rintro l₁ e l₂ rfl h₁ h₂
        rw [heq]
        simp [getManualAssignedTime, hlk, find?_first_match _ _ _ _ h₁ h₂]

theorem claim5_witness :
    getAssignedTime pW1 "TASK-1" = some 60000 ∧ getAssignedTime pW5 "TASK-2" = some 777 := by
  constructor
  · rw [(((claim5_assigned_by_mode pW1 "TASK-1").2 (by decide)).2.2
      [histIN, histAS, histSC] (by decide)).2 [histIN] histAS [histSC]
      (by decide) (by decide) (by decide)]
    decide
  · obtain ⟨aa, hlk, heq⟩ := (claim5_assigned_by_mode pW5 "TASK-2").1 (by decide)
    have haa : aa = aaW5 := by
      have h2 : mapLookup pW5.autoAssignmentIndex "TASK-2" = some aaW5 := by decide
      exact Option.some.inj (hlk.symm.trans h2)
    rw [heq, haa]
    decide

/-- C6: the report user is resolved as the login email of the first
TaskActions entry, else the AutoAssignment email, else the literal Unknown;
the resolved email is looked up for a display name; and the display string
is split so that a Name (email) form free of regex line terminators yields
separate components, while any other form, including one whose groups would
have to contain a line terminator the regex dot cannot match, mirrors the
whole string into both fields. -/
theorem claim6_user_resolution :
    (∀ (tz : Int) (p : TaskProcessor) (r : ReportRecord), r ∈ generateReport tz p →
      (r.userName, r.userEmail) = splitUser (resolveUserString p r.task)) ∧
    (∀ (p : TaskProcessor) (t : String) (a : TaskAction) (rest : List TaskAction),
      mapLookup p.taskActionIndex t = some (a :: rest) →
      resolveUserString p t = getUserDisplayName p a.loginEmail) ∧
    (∀ (p : TaskProcessor) (t : String) (aa : AutoAssignment) (e : String),
      (mapLookup p.taskActionIndex t = none ∨ mapLookup p.taskActionIndex t = some []) →
      mapLookup p.autoAssignmentIndex t = some aa → aa.email = some e → e ≠ "" →
      resolveUserString p t = getUserDisplayName p e) ∧
    (∀ (p : TaskProcessor) (t : String),
      (mapLookup p.taskActionIndex t = none ∨ mapLookup p.taskActionIndex t = some []) →
      (mapLookup p.autoAssignmentIndex t = none ∨
        ∃ aa, mapLookup p.autoAssignmentIndex t = some aa ∧
          (aa.email = none ∨ aa.email = some "")) →
      resolveUserString p t = "Unknown") ∧
    (∀ (p : TaskProcessor) (e d : String), mapLookup p.userIndex e = some d → d ≠ "" →
      getUserDisplayName p e = d ++ " (" ++ e ++ ")") ∧
    (∀ (p : TaskProcessor) (e : String), mapLookup p.userIndex e = none →
      getUserDisplayName p e = e) ∧
    (∀ name email : String, hasSpaceParen name.data = false →
      hasLineTerm name.data = false → hasLineTerm email.data = false →
      name ++ " (" ++ email ++ ")" ≠ "Unknown" →
      splitUser (name ++ " (" ++ email ++ ")") = (name, email)) ∧
    (∀ s : String, s ≠ "Unknown" →
      (firstSplitAux s.data = none ∨
        ∀ pr, firstSplitAux s.data = some pr →
          ¬ (pr.2.getLast? = some ')' ∧ hasLineTerm pr.2.dropLast = false)) →
      splitUser s = (s, s)) ∧
    (∀ s : String, s ≠ "Unknown" → hasLineTerm s.data = true → splitUser s = (s, s)) := by
  refine ⟨?_, ?_, ?_, ?_, ?_, ?_, splitUser_named, splitUser_mirror, splitUser_lineTerm⟩
  · intro tz p r hr
    obtain ⟨t, ht, rfl⟩ := (mem_generateReport tz p r).mp hr
    rfl
  · intro p t a rest hlk
    unfold resolveUserString
    rw [hlk]
  · intro p t aa e hact hauto he hne
    have hstep : resolveUserString p t =
        (match mapLookup p.autoAssignmentIndex t with
         | some autoAssignment =>
           match autoAssignment.email with
           | some e => if e != "" then getUserDisplayName p e else "Unknown"
           | none => "Unknown"
         | none => "Unknown") := by
      unfold resolveUserString
      rcases hact with h | h <;> rw [h]
    rw [hstep, hauto]
    simp [he, hne]
  · intro p t hact hauto
    have hstep : resolveUserString p t =
        (match mapLookup p.autoAssignmentIndex t with
         | some autoAssignment =>
           match autoAssignment.email with
           | some e => if e != "" then getUserDisplayName p e else "Unknown"
           | none => "Unknown"
         | none => "Unknown") := by
      unfold resolveUserString
      rcases hact with h | h <;> rw [h]
    rw [hstep]
    rcases hauto with h | ⟨aa, h, hee⟩
    · rw [h]
    · rw [h]
      rcases hee with he | he
      · simp [he]
      · simp [he]
  · intro p e d hlk hne
    unfold getUserDisplayName
    rw [hlk]
    simp [hne]
  · intro p e hlk
    unfold getUserDisplayName
    rw [hlk]

theorem claim6_witness :
    (rW6.userName, rW6.userEmail) = splitUser (resolveUserString pW6 "TASK-1") ∧
    splitUser ("John Doe" ++ " (" ++ "j@x.com" ++ ")") = ("John Doe", "j@x.com") ∧
    splitUser "A\nB (e@x)" = ("A\nB (e@x)", "A\nB (e@x)") := by
  refine ⟨?_, ?_, ?_⟩
  · exact claim6_user_resolution.1 0 pW6 rW6 (by decide)
  · exact claim6_user_resolution.2.2.2.2.2.2.1 "John Doe" "j@x.com" (by decide) (by decide)
      (by decide) (by decide)
  · exact claim6_user_resolution.2.2.2.2.2.2.2.2 "A\nB (e@x)" (by decide) (by decide)

/-- C7: the main report holds exactly one record per distinct task id in
the union of the TaskActions, TaskHistory and AutoAssignment key sets, and
a task id present only in the OpenTime or ScreenOpen index never appears in
the report. -/
theorem claim7_report_universe (tz : Int) (p : TaskProcessor) :
    ((generateReport tz p).map (fun r => r.task)).Nodup ∧
    (∀ t, (∃ r, r ∈ generateReport tz p ∧ r.task = t) ↔
      (t ∈ p.taskActionIndex.map Prod.fst ∨ t ∈ p.taskHistoryIndex.map Prod.fst ∨
        t ∈ p.autoAssignmentIndex.map Prod.fst)) ∧
    (∀ t, (t ∈ p.openTimeIndex.map Prod.fst ∨ t ∈ p.screenOpenIndex.map Prod.fst) →
      t ∉ p.taskActionIndex.map Prod.fst → t ∉ p.taskHistoryIndex.map Prod.fst →
      t ∉ p.autoAssignmentIndex.map Prod.fst →
      ¬ ∃ r, r ∈ generateReport tz p ∧ r.task = t) := by
  have hmem : ∀ t, (∃ r, r ∈ generateReport tz p ∧ r.task = t) ↔
      (t ∈ p.taskActionIndex.map Prod.fst ∨ t ∈ p.taskHistoryIndex.map Prod.fst ∨
        t ∈ p.autoAssignmentIndex.map Prod.fst) := by
    intro t
    rw [← mem_collectTaskIds, ← generateReport_task_map tz p]
    constructor
    · rintro ⟨r, hr, rfl⟩
      exact List.mem_map.mpr ⟨r, hr, rfl⟩
    · intro h
      obtain ⟨r, hr, hrt⟩ := List.mem_map.mp h
      exact ⟨r, hr, hrt⟩
  refine ⟨?_, hmem, ?_⟩
  · rw [generateReport_task_map]
    exact collectTaskIds_nodup p
  · intro t hopen h1 h2 h3 hex
    rcases (hmem t).mp hex with hin | hin | hin
    · exact h1 hin
    · exact h2 hin
    · exact h3 hin

theorem claim7_witness : ¬ ∃ r, r ∈ generateReport 0 pW7 ∧ r.task = "TASK-9" :=
  (claim7_report_universe 0 pW7).2.2 "TASK-9" (Or.inl (by decide)) (by decide) (by decide)
    (by decide)

/-- C8: the elapsed-minutes arithmetic is symmetric in its two endpoints,
its result on valid instants is the whole non-negative number of minutes of
the absolute difference, and it is null whenever either argument is missing
or invalid. -/
theorem claim8_elapsed_props :
    (∀ a b : Int,
      calculateTimeDifferenceMinutes (some (JsDate.valid a)) (some (JsDate.valid b)) =
        calculateTimeDifferenceMinutes (some (JsDate.valid b)) (some (JsDate.valid a))) ∧
    (∀ a b : Int,
      calculateTimeDifferenceMinutes (some (JsDate.valid a)) (some (JsDate.valid b)) =
        some ((b - a).natAbs / 60000)) ∧
    (∀ x, calculateTimeDifferenceMinutes none x = none) ∧
    (∀ x, calculateTimeDifferenceMinutes x none = none) ∧
    (∀ x, calculateTimeDifferenceMinutes (some JsDate.invalid) x = none) ∧
    (∀ x, calculateTimeDifferenceMinutes x (some JsDate.invalid) = none) := by
  refine ⟨?_, ?_, ?_, ?_, ?_, ?_⟩
  · intro a b
    simp only [calculateTimeDifferenceMinutes, Option.some.injEq]
    omega
  · intro a b
    rfl
  · intro x
    cases x with
    | none => rfl
    | some d => cases d <;> rfl
  · intro x
    cases x with
    | none => rfl
    | some d => cases d <;> rfl
  · intro x
    cases x with
    | none => rfl
    | some d => cases d <;> rfl
  · intro x
    cases x with
    | none => rfl
    | some d => cases d <;> rfl

/-- C9: each auxiliary analysis row is exactly the spec-modelled row: the
earliest ScreenOpen timestamp of the assigned user is the minimum of the
stored list, timeToOpenMinutes is the elapsed minutes from the assignment
to that minimum exactly when the minimum is strictly later, and the
minimum is independent of insertion order. -/
theorem claim9_auto_open_analysis (p : TaskProcessor) :
    generateAutoTaskOpenAnalysis p = p.autoAssignmentIndex.map (analysisSpecRecord p) ∧
    (∀ e l, mapLookup p.screenOpenIndex e = some l →
      getFirstScreenOpenTime p (some e) = minTimestamp l) ∧
    (∀ (l : List Int) (m : Int), minTimestamp l = some m → m ∈ l ∧ ∀ x ∈ l, m ≤ x) ∧
    (∀ l₁ l₂ : List Int, l₁.Perm l₂ → minTimestamp l₁ = minTimestamp l₂) := by
  refine ⟨?_, ?_, minTimestamp_spec, minTimestamp_perm⟩
  · apply List.map_congr_left
    intro entry _
    have he : getFirstScreenOpenTime p entry.2.email =
        (match entry.2.email with
         | none => none
         | some e => (mapLookup p.screenOpenIndex e).bind minTimestamp) := by
      cases entry.2.email with
      | none => rfl
      | some e => exact getFirstScreenOpenTime_eq_min p e
    simp only [analysisSpecRecord]
    rw [← he]
  · intro e l hlk
    rw [getFirstScreenOpenTime_eq_min, hlk]
    rfl

theorem claim9_witness :
    getFirstScreenOpenTime pW9 (some "u@x") = some 160000 ∧
    (generateAutoTaskOpenAnalysis pW9).map (fun r => r.timeToOpenMinutes) = [some 2] ∧
    minTimestamp [1, 2] = minTimestamp [2, 1] := by
  refine ⟨?_, ?_, ?_⟩
  · rw [(claim9_auto_open_analysis pW9).2.1 "u@x" [400000, 160000, 700000] (by decide)]
    decide
  · rw [(claim9_auto_open_analysis pW9).1]
    decide
  · exact (claim9_auto_open_analysis pW9).2.2.2 [1, 2] [2, 1] (by decide)

/-- C10: after construction the AutoAssignment index binds each task id to
the last input record carrying that id as a truthy key, so it holds at most
one record per id with last-write-wins, and a gcp.json entry whose payload
is falsy, yields no TASK-number, or yields no resolvable timestamp
contributes nothing to the extracted list that feeds index construction. -/
theorem claim10_auto_index (tz : Int) :
    (∀ (l : List AutoAssignment) (t : String),
      mapLookup (buildAutoAssignmentIndex emptyProcessor l).autoAssignmentIndex t =
        match l.reverse.find? (fun a => autoIndexKey a == some t) with
        | some a => some a
        | none => none) ∧
    (∀ l : List AutoAssignment,
      (((buildAutoAssignmentIndex emptyProcessor l).autoAssignmentIndex).map
        Prod.fst).Nodup) ∧
    (∀ item, jsTruthyStr item.textPayload = false → extractAutoAssignment tz item = none) ∧
    (∀ item s, item.textPayload = some s → findTaskIdAux s.data = none →
      extractAutoAssignment tz item = none) ∧
    (∀ item, gcpResolveTimestamp tz item = none → extractAutoAssignment tz item = none) ∧
    (∀ (items₁ items₂ : List GCPItem) (item : GCPItem), extractAutoAssignment tz item = none →
      parseGCPJson tz (items₁ ++ item :: items₂) = parseGCPJson tz (items₁ ++ items₂)) := by
  refine ⟨buildAuto_lookup, ?_, ?_, ?_, ?_, ?_⟩
  · intro l
    rw [buildAuto_index]
    exact buildAuto_keys_nodup_fold l [] (by simp)
  · intro item h
    unfold extractAutoAssignment
    rw [h]
    simp
  · intro item s hpay hfind
    unfold extractAutoAssignment
    by_cases ht : jsTruthyStr item.textPayload = true
    · rw [if_pos ht, hpay]
      simp only [Option.getD_some]
      rw [hfind]
    · rw [if_neg ht]
  · intro item h
    unfold extractAutoAssignment
    by_cases ht : jsTruthyStr item.textPayload = true
    · rw [if_pos ht]
      cases hf : findTaskIdAux (item.textPayload.getD "").data with
      | none => rfl
      | some tid =>
        rw [h]
    · rw [if_neg ht]
  · intro items₁ items₂ item h
    unfold parseGCPJson
    simp [List.filterMap_append, List.filterMap_cons, h]

theorem claim10_witness :
    mapLookup (buildAutoAssignmentIndex emptyProcessor [aaDupA, aaDupB]).autoAssignmentIndex
        "TASK-1" = some aaDupB ∧
    extractAutoAssignment 0 gcpNoTask = none ∧
    extractAutoAssignment 0 gcpNoTs = none ∧
    parseGCPJson 0 [gcpNoTask] = parseGCPJson 0 [] := by
  refine ⟨?_, ?_, ?_, ?_⟩
  · rw [(claim10_auto_index 0).1 [aaDupA, aaDupB] "TASK-1"]
    decide
  · exact (claim10_auto_index 0).2.2.2.1 gcpNoTask "no task id here 2025-08-15T09:27:58.694Z"
      rfl (by decide)
  · exact (claim10_auto_index 0).2.2.2.2.1 gcpNoTs (by decide)
  · exact (claim10_auto_index 0).2.2.2.2.2 [] [] gcpNoTask
      ((claim10_auto_index 0).2.2.2.1 gcpNoTask _ rfl (by decide))

end TaskReport
